import Mathlib

/-!
Verification model of the cilium kvstore-backed identity allocator backend
(package `allocator`: `kvstoreBackend`).  Go strings are modelled as Lean
strings viewed through their character lists (`String.data`); byte positions
of the Go code coincide with character positions on the ASCII keys handled
by the allocator.  Go maps handed to and returned by the backend are
modelled as association lists, kv-store side effects as explicit operation
traces, and the outcomes of fallible kv-store calls as environment oracles.
-/

namespace KVAlloc

set_option autoImplicit false

/-- Go `len(s)` (character count; coincides with bytes on ASCII data). -/
def goLen (s : String) : Nat := s.data.length

/-- Index of the last `'/'` in a character list, if any. -/
def lastSlashPos : List Char → Option Nat
  | [] => none
  | c :: cs =>
    match lastSlashPos cs with
    | some i => some (i + 1)
    | none => if c = '/' then some 0 else none

/-- Go `strings.LastIndex(key, "/")`: index of the last slash, `-1` if none. -/
def lastIndexSlash (s : String) : Int :=
  match lastSlashPos s.data with
  | some i => Int.ofNat i
  | none => -1

/-- `prefixMatchesKey` from the source: the last `/` of `key` sits exactly at
position `len(prefix)`. -/
def prefixMatchesKey (pfx key : String) : Bool :=
  lastIndexSlash key == Int.ofNat (goLen pfx)

/-- Go `strings.Split(s, "/")` on the character list. -/
def splitOnSlash : List Char → List (List Char)
  | [] => [[]]
  | c :: cs =>
    let r := splitOnSlash cs
    if c = '/' then [] :: r
    else
      match r with
      | [] => [[c]]
      | h :: t => (c :: h) :: t

/-- Go `strings.Split(s, "/")`. -/
def splitSlash (s : String) : List String :=
  (splitOnSlash s.data).map fun l => ⟨l⟩

/-- Go `strings.HasPrefix(s, pfx)`. -/
def goHasPfx (s pfx : String) : Bool := List.isPrefixOf pfx.data s.data

/-- Go `strings.TrimPrefix(s, pfx)`. -/
def trimPfx (s pfx : String) : String :=
  if goHasPfx s pfx then ⟨s.data.drop pfx.data.length⟩ else s

/-- Decimal digit value of a character, if it is one. -/
def digitVal (c : Char) : Option Nat :=
  if '0' ≤ c ∧ c ≤ '9' then some (c.toNat - '0'.toNat) else none

/-- Accumulate decimal digits; fails on any non-digit. -/
def parseDigitsAux : List Char → Nat → Option Nat
  | [], acc => some acc
  | c :: cs, acc =>
    match digitVal c with
    | some d => parseDigitsAux cs (acc * 10 + d)
    | none => none

/-- Go `strconv.ParseUint(s, 10, 64)`: digits only, non-empty, must fit in
64 bits; returns `none` on any error. -/
def parseUint64 (s : String) : Option Nat :=
  match s.data, parseDigitsAux s.data 0 with
  | [], _ => none
  | _ :: _, none => none
  | _ :: _, some n => if n < 2 ^ 64 then some n else none

/-- Digit character for a value below 10. -/
def digitChr (d : Nat) : Char := Char.ofNat (48 + d)

/-- Decimal digits of `n`, most significant first, with fuel. -/
def natDigitsAux : Nat → Nat → List Char → List Char
  | 0, _, acc => acc
  | fuel + 1, n, acc =>
    if n = 0 then acc else natDigitsAux fuel (n / 10) (digitChr (n % 10) :: acc)

/-- Go `strconv.FormatUint(n, 10)` / `idpool.ID.String()`. -/
def natToString (n : Nat) : String :=
  if n = 0 then "0" else ⟨natDigitsAux (n + 1) n []⟩

/-- Join character-list path elements with `'/'`. -/
def joinSlashCL : List (List Char) → List Char
  | [] => []
  | [x] => x
  | x :: xs => x ++ '/' :: joinSlashCL xs

/-- Go `path.Clean` (lexical cleaning: collapse slashes, resolve `.` and
`..`, keep rootedness). -/
def pathClean (p : String) : String :=
  if p.data = [] then "."
  else
    let rooted := p.data.head? = some '/'
    let parts := splitOnSlash p.data
    let out := parts.foldl
      (fun acc e =>
        if e = [] ∨ e = ['.'] then acc
        else if e = ['.', '.'] then
          match acc with
          | [] => if rooted then [] else [['.', '.']]
          | top :: rest => if top = ['.', '.'] then e :: acc else rest
        else e :: acc)
      ([] : List (List Char))
    let joined := joinSlashCL out.reverse
    if rooted then ⟨'/' :: joined⟩
    else if joined = [] then "." else ⟨joined⟩

/-- Go `path.Join`: drop leading empty elements, join the rest with `'/'`,
then `path.Clean`; all empty yields `""`. -/
def pathJoin (elems : List String) : String :=
  match elems.dropWhile (fun e => e.data.isEmpty) with
  | [] => ""
  | rest => pathClean ⟨joinSlashCL (rest.map String.data)⟩

/-- Modelled from the spec: a kv-store entry as returned by `ListPrefix`
(§4.A): value bytes, modification revision and lease id (`kvstore.Value`). -/
structure Value where
  data : String
  modRevision : Nat
  leaseID : Int
deriving DecidableEq, Repr

/-- Association-list lookup, modelling Go map indexing. -/
def lookupA {α : Type} : List (String × α) → String → Option α
  | [], _ => none
  | (k, v) :: rest, key => if k = key then some v else lookupA rest key

/-- Modelled from the spec: `idpool.NoID`, the sentinel zero identity. -/
def noID : Nat := 0

/-- Configuration of `kvstoreBackend`: `basePrefix`, `idPrefix`,
`valuePrefix`, `lockPrefix` and the node `suffix` of the source, renamed to
`basePath`/`idPath`/`valuePath`/`lockPath`/`nodeSuffix`. -/
structure BackendCfg where
  basePath : String
  idPath : String
  valuePath : String
  lockPath : String
  nodeSuffix : String
deriving DecidableEq, Repr

/-- `NewKVStoreBackend`: derive the id, value and lock paths from the base
path. -/
def newKVStoreBackend (basePath nodeSuffix : String) : BackendCfg :=
  ⟨basePath, pathJoin [basePath, "id"], pathJoin [basePath, "value"],
    pathJoin [basePath, "locks"], nodeSuffix⟩

/-- Master-key path `idPrefix/{ID}` written by the backend. -/
def masterPath (cfg : BackendCfg) (id : Nat) : String :=
  pathJoin [cfg.idPath, natToString id]

/-- Slave-key path `valuePrefix/{key}/{nodeSuffix}` written by the backend. -/
def slavePath (cfg : BackendCfg) (key : String) : String :=
  pathJoin [cfg.valuePath, key, cfg.nodeSuffix]

/-! ### Store operations and their semantics -/

/-- A mutation issued by the backend against the kv-store. -/
inductive KVOp where
  | createOnly (key : String) (value : String) (lease : Bool)
  | updateIfDifferent (key : String) (value : String) (lease : Bool)
  | del (key : String)
deriving DecidableEq, Repr

/-- The key an operation touches. -/
def KVOp.opKey : KVOp → String
  | KVOp.createOnly k _ _ => k
  | KVOp.updateIfDifferent k _ _ => k
  | KVOp.del k => k

/-- A kv-store state: keys to value bytes. -/
def Store : Type := List (String × String)

/-- Remove every binding of `k`. -/
def storeDel (store : Store) (k : String) : Store :=
  store.filter fun p => !(p.1 == k)

/-- Bind `k` to `v`, dropping older bindings. -/
def storeSet (store : Store) (k v : String) : Store :=
  (k, v) :: storeDel store k

/-- Modelled from the spec: the effect of the kv-store primitives of §4.A.
`CreateOnly` is atomic create-if-absent, `UpdateIfDifferent` writes unless
the value is already equal, `Delete` removes the key. -/
def applyOp (store : Store) : KVOp → Store
  | KVOp.createOnly k v _ =>
    if (lookupA store k).isSome then store else storeSet store k v
  | KVOp.updateIfDifferent k v _ =>
    match lookupA store k with
    | some w => if w = v then store else storeSet store k v
    | none => storeSet store k v
  | KVOp.del k => storeDel store k

/-- Apply a trace of operations in order. -/
def applyOps (store : Store) : List KVOp → Store
  | [] => store
  | op :: rest => applyOps (applyOp store op) rest

/-! ### keyToID -/

/-- Outcome of `keyToID`: the Go function either panics (out-of-bounds index
on an empty suffix), returns `NoID` with an error, or returns a parsed id. -/
inductive KeyToIDOutcome where
  | crash
  | err
  | ok (id : Nat)
deriving DecidableEq, Repr

/-- `kvstoreBackend.keyToID`: check the id path is a string prefix of `key`,
trim it, skip one leading `'/'`, and parse the rest as a decimal uint64.
Indexing `suffix[0]` on an empty suffix is the Go panic, surfaced here as
`KeyToIDOutcome.crash`. -/
def keyToID (idPath key : String) : KeyToIDOutcome :=
  if goHasPfx key idPath = false then KeyToIDOutcome.err
  else
    let suffix := trimPfx key idPath
    match suffix.data with
    | [] => KeyToIDOutcome.crash
    | c :: rest =>
      let suffix2 : String := if c = '/' then ⟨rest⟩ else suffix
      match parseUint64 suffix2 with
      | none => KeyToIDOutcome.err
      | some n => KeyToIDOutcome.ok n

/-! ### Get -/

/-- The scan of `kvstoreBackend.Get` over the listed slave pairs: return the
first value that sits directly under the prefix and parses as a decimal
uint64, else `NoID`. -/
def getLoop (pfx : String) : List (String × Value) → Nat
  | [] => noID
  | (k, v) :: rest =>
    if prefixMatchesKey pfx k then
      match parseUint64 v.data with
      | some id => id
      | none => getLoop pfx rest
    else getLoop pfx rest

/-- `kvstoreBackend.Get`: list the slave keys under `valuePrefix/{key}`
(`none` models a kv-store listing error, propagated to the caller) and scan
them. -/
def get (cfg : BackendCfg) (listing : Option (List (String × Value)))
    (key : String) : Option Nat :=
  match listing with
  | none => none
  | some pairs => some (getLoop (pathJoin [cfg.valuePath, key]) pairs)

/-! ### UpdateKey and Release -/

/-- Outcomes of the kv-store calls made by `UpdateKey` and `Release`:
`createOnlyRes`/`updateIfDifferentRes` give `none` on error and
`some created` on success; `deleteOk` tells whether a delete succeeded. -/
structure KVEnv where
  createOnlyRes : String → Option Bool
  updateIfDifferentRes : String → Option Bool
  deleteOk : String → Bool

/-- `kvstoreBackend.UpdateKey`: re-create the master key with `CreateOnly`
(never overwriting an existing key), then write the slave key — with
`CreateOnly` when `reliablyMissing`, else with `UpdateIfDifferent`.  Returns
the trace of issued operations and whether an error was returned. -/
def updateKey (cfg : BackendCfg) (env : KVEnv) (id : Nat) (key : String)
    (reliablyMissing : Bool) : List KVOp × Bool :=
  let keyPath := masterPath cfg id
  let valueKey := slavePath cfg key
  match env.createOnlyRes keyPath with
  | none => ([KVOp.createOnly keyPath key false], true)
  | some _ =>
    if reliablyMissing then
      ([KVOp.createOnly keyPath key false,
        KVOp.createOnly valueKey (natToString id) true],
        (env.createOnlyRes valueKey).isNone)
    else
      ([KVOp.createOnly keyPath key false,
        KVOp.updateIfDifferent valueKey (natToString id) true],
        (env.updateIfDifferentRes valueKey).isNone)

/-- `kvstoreBackend.Release`: delete this node's slave key
`valuePrefix/{key}/{nodeSuffix}`; the delete error, if any, is returned. -/
def release (cfg : BackendCfg) (env : KVEnv) (key : String) :
    List KVOp × Bool :=
  let valueKey := slavePath cfg key
  ([KVOp.del valueKey], !env.deleteOk valueKey)

/-! ### RunLocksGC -/

/-- The mark check of `RunLocksGC`: the lock key was stale in the previous
round with identical modification revision and lease id. -/
def lockStale (prev : List (String × Value)) (key : String) (v : Value) :
    Bool :=
  match lookupA prev key with
  | some mv => mv.modRevision == v.modRevision && mv.leaseID == v.leaseID
  | none => false

/-- Environment of a `RunLocksGC` cycle: the listing of `locks/` (`none`
models a listing error) and the success of each delete. -/
structure LockGCEnv where
  lockList : Option (List (String × Value))
  deleteOk : String → Bool

/-- The loop of `RunLocksGC` over the listed lock keys: delete a key marked
stale in the previous round with unchanged `(modRevision, leaseID)`; every
key not successfully deleted is re-marked with its current
`(modRevision, leaseID)`.  Returns the new stale map and the deleted keys. -/
def runLocksGCLoop (delOk : String → Bool) (prev : List (String × Value)) :
    List (String × Value) → List (String × Value) × List String
  | [] => ([], [])
  | (key, v) :: rest =>
    let r := runLocksGCLoop delOk prev rest
    if lockStale prev key v && delOk key then (r.1, key :: r.2)
    else ((key, ⟨"", v.modRevision, v.leaseID⟩) :: r.1, r.2)

/-- `kvstoreBackend.RunLocksGC`: list `locks/` and run the loop; a listing
error is returned to the caller. -/
def runLocksGC (env : LockGCEnv) (prev : List (String × Value)) :
    Option (List (String × Value) × List String) :=
  match env.lockList with
  | none => none
  | some allocated => some (runLocksGCLoop env.deleteOk prev allocated)

/-! ### RunGC -/

/-- Side effects of one `RunGC` iteration, tagged with the master key being
processed: acquiring its per-key lock, listing its slave keys, attempting
its deletion. -/
inductive GCEvent where
  | lockAttempt (masterKey : String)
  | listSlaves (masterKey : String) (pfx : String)
  | deleteAttempt (masterKey : String)
deriving DecidableEq, Repr

/-- The master key an event belongs to. -/
def gcEventKey : GCEvent → String
  | GCEvent.lockAttempt k => k
  | GCEvent.listSlaves k _ => k
  | GCEvent.deleteAttempt k => k

/-- Environment of a `RunGC` cycle: the listing of `id/` (`none` models a
listing error), and per master key the success of the per-key lock, the
locked slave-key listing, the success of `DeleteIfLocked` and of the
rate-limiter wait. -/
structure GCEnv where
  idList : Option (List (String × Value))
  lockOk : String → Bool
  slaveList : String → Option (List (String × Value))
  deleteOk : String → Bool
  waitOk : String → Bool

/-- Result of one `RunGC` iteration: emitted events, the stale-map entry
recorded, whether a delete succeeded, whether the `deleted` flag was set
(rate-limit point), and whether the rate-limiter aborted the cycle. -/
structure GCStepOut where
  events : List GCEvent
  stale : Option (String × Nat)
  delSucceeded : Bool
  delFlag : Bool
  abort : Bool
deriving Repr

/-- One iteration of the `RunGC` loop over a listed master key `(key, v)`:
parse the identity from the last path segment (skip on failure), skip ids
outside `[mi, ma]`, lock the key, list its slave keys, and — when no listed
slave key matches `prefixMatchesKey` — either delete the key (only when the
previous round marked it at the same modification revision) or mark it
stale for the next round (only when the previous round did not mark it). -/
def gcStep (cfg : BackendCfg) (env : GCEnv) (prev : List (String × Nat))
    (mi ma : Nat) (key : String) (v : Value) : GCStepOut :=
  if (splitSlash key).isEmpty then ⟨[], none, false, false, false⟩
  else
    match parseUint64 ((splitSlash key).getLastD "") with
    | none => ⟨[], none, false, false, false⟩
    | some identityID =>
      if identityID < mi ∨ identityID > ma then ⟨[], none, false, false, false⟩
      else if env.lockOk key = false then
        ⟨[GCEvent.lockAttempt key], none, false, false, false⟩
      else
        match env.slaveList key with
        | none =>
          ⟨[GCEvent.lockAttempt key,
              GCEvent.listSlaves key (pathJoin [cfg.valuePath, v.data])],
            none, false, false, false⟩
        | some pairs =>
          if pairs.any
              (fun p => prefixMatchesKey (pathJoin [cfg.valuePath, v.data]) p.1)
          then
            ⟨[GCEvent.lockAttempt key,
                GCEvent.listSlaves key (pathJoin [cfg.valuePath, v.data])],
              none, false, false, false⟩
          else
            match lookupA prev key with
            | some modRev =>
              if modRev = v.modRevision then
                ⟨[GCEvent.lockAttempt key,
                    GCEvent.listSlaves key (pathJoin [cfg.valuePath, v.data]),
                    GCEvent.deleteAttempt key],
                  none, env.deleteOk key, true, !env.waitOk key⟩
              else
                ⟨[GCEvent.lockAttempt key,
                    GCEvent.listSlaves key (pathJoin [cfg.valuePath, v.data])],
                  none, false, false, false⟩
            | none =>
              ⟨[GCEvent.lockAttempt key,
                  GCEvent.listSlaves key (pathJoin [cfg.valuePath, v.data])],
                some (key, v.modRevision), false, false, false⟩

/-- Accumulated state of the `RunGC` loop. -/
structure GCAcc where
  staleKeys : List (String × Nat)
  deletedEntries : Nat
  events : List GCEvent
  ok : Bool
deriving Repr

/-- The `RunGC` loop: run `gcStep` on each listed master key; a failed
rate-limiter wait after a deletion aborts the cycle, returning the error
(and hence no stale map). -/
def runGCLoop (cfg : BackendCfg) (env : GCEnv) (prev : List (String × Nat))
    (mi ma : Nat) : List (String × Value) → GCAcc → GCAcc
  | [], acc => acc
  | (key, v) :: rest, acc =>
    let s := gcStep cfg env prev mi ma key v
    let acc2 : GCAcc :=
      ⟨acc.staleKeys ++ s.stale.toList,
        acc.deletedEntries + (if s.delSucceeded then 1 else 0),
        acc.events ++ s.events, acc.ok⟩
    if s.abort then ⟨[], acc2.deletedEntries, acc2.events, false⟩
    else runGCLoop cfg env prev mi ma rest acc2

/-- Result of a `RunGC` cycle: the returned stale map, the
`{alive, deleted}` statistics, the events performed, and whether the cycle
completed without error. -/
structure GCResult where
  staleKeys : List (String × Nat)
  alive : Nat
  deleted : Nat
  events : List GCEvent
  ok : Bool
deriving Repr

/-- `kvstoreBackend.RunGC`: list the master keys under `id/` and run the
loop; a listing error is returned to the caller. -/
def runGC (cfg : BackendCfg) (env : GCEnv) (prev : List (String × Nat))
    (mi ma : Nat) : GCResult :=
  match env.idList with
  | none => ⟨[], 0, 0, [], false⟩
  | some allocated =>
    let acc := runGCLoop cfg env prev mi ma allocated ⟨[], 0, [], true⟩
    ⟨acc.staleKeys, allocated.length - acc.deletedEntries,
      acc.deletedEntries, acc.events, acc.ok⟩

/-! ### ListAndWatch -/

/-- Watcher event types (`kvstore.EventType*`). -/
inductive EventType where
  | create
  | modify
  | delete
  | listDone
deriving DecidableEq, Repr

/-- A watcher event as delivered by `backend.ListAndWatch`. -/
structure KVEvent where
  typ : EventType
  key : String
  value : String
deriving DecidableEq, Repr

/-- A callback invoked on the cache-mutation handler. -/
inductive HandlerCall where
  | onListDone
  | onUpsert (id : Nat) (key : Option String)
  | onDelete (id : Nat) (key : Option String)
deriving DecidableEq, Repr

/-- Whether a list of callbacks contains a mapping-carrying one
(`OnUpsert` or `OnDelete`). -/
def hasMappingCall (cs : List HandlerCall) : Bool :=
  cs.any fun c =>
    match c with
    | HandlerCall.onUpsert _ _ => true
    | HandlerCall.onDelete _ _ => true
    | _ => false

/-- One event of `kvstoreBackend.ListAndWatch`: `ListDone` fires
`OnListDone`; otherwise the key is parsed with `keyToID` (a parse error is
only logged, and a `keyToID` panic — `none` here — kills the watcher), an id
equal to `NoID` is ignored, a non-empty value yields `OnUpsert` on
create/modify and `OnDelete` on delete, an empty value is only logged unless
the event is a delete, which fires `OnDelete` with a nil key. -/
def processEvent (idPath : String) (e : KVEvent) :
    Option (List HandlerCall) :=
  if e.typ = EventType.listDone then some [HandlerCall.onListDone]
  else
    match keyToID idPath e.key with
    | KeyToIDOutcome.crash => none
    | KeyToIDOutcome.err => some []
    | KeyToIDOutcome.ok id =>
      if id = noID then some []
      else if 0 < e.value.data.length then
        match e.typ with
        | EventType.create => some [HandlerCall.onUpsert id (some e.value)]
        | EventType.modify => some [HandlerCall.onUpsert id (some e.value)]
        | EventType.delete => some [HandlerCall.onDelete id (some e.value)]
        | EventType.listDone => some []
      else if e.typ ≠ EventType.delete then some []
      else some [HandlerCall.onDelete id none]

/-- `kvstoreBackend.ListAndWatch` over a finite event stream: concatenate
the callbacks of each event; a `keyToID` panic kills the watcher. -/
def listAndWatch (idPath : String) : List KVEvent → Option (List HandlerCall)
  | [] => some []
  | e :: rest =>
    match processEvent idPath e with
    | none => none
    | some cs =>
      match listAndWatch idPath rest with
      | none => none
      | some cs2 => some (cs ++ cs2)

/-! ### Concrete fixtures used by witnesses and counterexamples -/

/-- A backend over base path `cil/state` for node suffix `n1`. -/
def cfgW : BackendCfg := newKVStoreBackend "cil/state" "n1"

/-- GC environment: one master key `id/5` at revision 7 with no slave keys;
every lock, delete and wait succeeds. -/
def envW1 : GCEnv :=
  ⟨some [("cil/state/id/5", ⟨"k1", 7, 1⟩)], fun _ => true, fun _ => some [],
    fun _ => true, fun _ => true⟩

/-- Previous-round stale map marking `id/5` at revision 7. -/
def prevW1 : List (String × Nat) := [("cil/state/id/5", 7)]

/-- GC environment: one master key `id/5` at revision 7, no slave keys. -/
def envC4 : GCEnv :=
  ⟨some [("cil/state/id/5", ⟨"k1", 7, 1⟩)], fun _ => true, fun _ => some [],
    fun _ => true, fun _ => true⟩

/-- Previous-round stale map marking `id/5` at the outdated revision 9. -/
def prevC4 : List (String × Nat) := [("cil/state/id/5", 9)]

/-- GC environment: one master key `id/6` at revision 11, no slave keys. -/
def envW4 : GCEnv :=
  ⟨some [("cil/state/id/6", ⟨"k2", 11, 1⟩)], fun _ => true, fun _ => some [],
    fun _ => true, fun _ => true⟩

/-- GC environment: one out-of-range master key `id/999999`. -/
def envW6 : GCEnv :=
  ⟨some [("cil/state/id/999999", ⟨"k9", 7, 1⟩)], fun _ => true,
    fun _ => some [], fun _ => true, fun _ => true⟩

/-- Two listed lock keys. -/
def allocW3 : List (String × Value) :=
  [("cil/state/locks/a", ⟨"", 3, 7⟩), ("cil/state/locks/b", ⟨"", 5, 9⟩)]

/-- Lock-GC environment: two lock keys, all deletes succeed. -/
def envW3 : LockGCEnv := ⟨some allocW3, fun _ => true⟩

/-- Previous lock-GC round: `locks/a` marked with the same
`(modRevision, leaseID)` it still has. -/
def prevW3 : List (String × Value) := [("cil/state/locks/a", ⟨"", 3, 7⟩)]

/-- One listed slave pair under `value/k` holding id 7. -/
def pairsW5 : List (String × Value) := [("cil/state/value/k/n2", ⟨"7", 10, 2⟩)]

/-- Backend-call environment where every call succeeds. -/
def envW7 : KVEnv := ⟨fun _ => some true, fun _ => some true, fun _ => true⟩

/-- Backend-call environment where every call succeeds. -/
def envW9 : KVEnv := ⟨fun _ => some true, fun _ => some true, fun _ => true⟩

/-- A store holding the master key `id/5` and two slave keys for `k`. -/
def storeW9 : Store :=
  [("cil/state/id/5", "k"), ("cil/state/value/k/n1", "5"),
    ("cil/state/value/k/n2", "5")]

/-! ### Lemmas about the string primitives -/

lemma lastSlashPos_spec (l : List Char) :
    (lastSlashPos l = none → ∀ j : Nat, l[j]? ≠ some '/') ∧
    (∀ i : Nat, lastSlashPos l = some i →
      l[i]? = some '/' ∧ ∀ j : Nat, l[j]? = some '/' → j ≤ i) := by
  induction l with
  | nil =>
    constructor
    · intro _ j
      simp
    · intro i h
      simp [lastSlashPos] at h
  | cons c cs ih =>
    obtain ⟨ihn, ihs⟩ := ih
    constructor
    · intro h j
      simp only [lastSlashPos] at h
      cases hcs : lastSlashPos cs with
      | some i => rw [hcs] at h; exact absurd h (by simp)
      | none =>
        rw [hcs] at h
        have hc : ¬c = '/' := by
          intro hc; rw [if_pos hc] at h; exact absurd h (by simp)
        match j with
        | 0 => simp [hc]
        | j + 1 => simpa using ihn hcs j
    · intro i h
      simp only [lastSlashPos] at h
      cases hcs : lastSlashPos cs with
      | some k =>
        rw [hcs] at h
        have hik : i = k + 1 := by simpa using h.symm
        subst hik
        obtain ⟨hget, hmax⟩ := ihs k hcs
        refine ⟨by simpa using hget, ?_⟩
        intro j hj
        match j with
        | 0 => exact Nat.zero_le _
        | j + 1 =>
          have := hmax j (by simpa using hj)
          omega
      | none =>
        rw [hcs] at h
        by_cases hc : c = '/'
        · rw [if_pos hc] at h
          have hi : i = 0 := by simpa using h.symm
          subst hi
          refine ⟨by simp [hc], ?_⟩
          intro j hj
          match j with
          | 0 => exact Nat.le_refl 0
          | j + 1 => exact absurd (by simpa using hj) (ihn hcs j)
        · rw [if_neg hc] at h; exact absurd h (by simp)

lemma getElem?_lt_of_eq_some {l : List Char} {j : Nat} {a : Char}
    (h : l[j]? = some a) : j < l.length := by
  rcases List.getElem?_eq_some.mp h with ⟨hlt, _⟩
  exact hlt

/-! ### Lemmas about association lists and the store -/

lemma lookupA_filter_ne {α : Type} (store : List (String × α)) (k k2 : String)
    (h : k2 ≠ k) :
    lookupA (store.filter fun p => !(p.1 == k)) k2 = lookupA store k2 := by
  induction store with
  | nil => rfl
  | cons p rest ih =>
    obtain ⟨pk, pv⟩ := p
    by_cases hp : pk = k
    · rw [List.filter_cons, if_neg (by simp [hp]), lookupA,
        if_neg (by rw [hp]; exact fun hk => h hk.symm)]
      exact ih
    · rw [List.filter_cons, if_pos (by simp [hp]), lookupA, lookupA]
      by_cases hpk : pk = k2
      · rw [if_pos hpk, if_pos hpk]
      · rw [if_neg hpk, if_neg hpk]
        exact ih

lemma lookupA_storeDel_ne (store : Store) (k k2 : String) (h : k2 ≠ k) :
    lookupA (storeDel store k) k2 = lookupA store k2 :=
  lookupA_filter_ne store k k2 h

lemma lookupA_storeSet_ne (store : Store) (k v : String) (k2 : String)
    (h : k2 ≠ k) :
    lookupA (storeSet store k v) k2 = lookupA store k2 := by
  rw [storeSet, lookupA, if_neg (fun hk => h hk.symm)]
  exact lookupA_storeDel_ne store k k2 h

/-- Any single operation leaves keys other than its own untouched. -/
lemma applyOp_frame (store : Store) (op : KVOp) (k2 : String)
    (h : k2 ≠ op.opKey) :
    lookupA (applyOp store op) k2 = lookupA store k2 := by
  cases op with
  | createOnly k v lease =>
    simp only [KVOp.opKey] at h
    by_cases hs : (lookupA store k).isSome
    · simp only [applyOp, if_pos hs]
    · simp only [applyOp, if_neg hs]
      exact lookupA_storeSet_ne store k v k2 h
  | updateIfDifferent k v lease =>
    simp only [KVOp.opKey] at h
    cases hl : lookupA store k with
    | some w =>
      by_cases hwv : w = v
      · simp only [applyOp, hl, if_pos hwv]
      · simp only [applyOp, hl, if_neg hwv]
        exact lookupA_storeSet_ne store k v k2 h
    | none =>
      simp only [applyOp, hl]
      exact lookupA_storeSet_ne store k v k2 h
  | del k =>
    simp only [KVOp.opKey] at h
    exact lookupA_storeDel_ne store k k2 h

/-- `CreateOnly` never changes an existing binding, of any key. -/
lemma applyOp_createOnly_keeps (store : Store) (k v : String) (lease : Bool)
    (k2 : String) (w : String) (h : lookupA store k2 = some w) :
    lookupA (applyOp store (KVOp.createOnly k v lease)) k2 = some w := by
  by_cases hk : k2 = k
  · subst hk
    have hs : (lookupA store k2).isSome := by rw [h]; rfl
    simp only [applyOp, if_pos hs]
    exact h
  · by_cases hs : (lookupA store k).isSome
    · simp only [applyOp, if_pos hs]
      exact h
    · simp only [applyOp, if_neg hs]
      rw [lookupA_storeSet_ne store k v k2 hk]
      exact h

/-! ### Lemmas about Get -/

lemma getLoop_spec (pfx : String) (pairs : List (String × Value)) :
    getLoop pfx pairs = noID ∨
      pairs.any (fun p => prefixMatchesKey pfx p.1 &&
        (parseUint64 p.2.data == some (getLoop pfx pairs))) = true := by
  induction pairs with
  | nil => exact Or.inl rfl
  | cons p rest ih =>
    obtain ⟨k, v⟩ := p
    by_cases hm : prefixMatchesKey pfx k
    · cases hp : parseUint64 v.data with
      | some id =>
        right
        have hg : getLoop pfx ((k, v) :: rest) = id := by
          simp [getLoop, hm, hp]
        rw [hg]
        simp [List.any_cons, hm, hp]
      | none =>
        have hg : getLoop pfx ((k, v) :: rest) = getLoop pfx rest := by
          simp [getLoop, hm, hp]
        rw [hg]
        rcases ih with h0 | h1
        · exact Or.inl h0
        · right
          simp only [List.any_cons]
          rw [h1]
          simp
    · have hg : getLoop pfx ((k, v) :: rest) = getLoop pfx rest := by
        simp [getLoop, hm]
      rw [hg]
      rcases ih with h0 | h1
      · exact Or.inl h0
      · right
        simp only [List.any_cons]
        rw [h1]
        simp

/-! ### Lemmas about RunLocksGC -/

lemma lockStale_iff (prev : List (String × Value)) (key : String) (v : Value) :
    lockStale prev key v = true ↔
      ∃ mv, lookupA prev key = some mv ∧ mv.modRevision = v.modRevision ∧
        mv.leaseID = v.leaseID := by
  unfold lockStale
  cases h : lookupA prev key with
  | none => simp
  | some mv => simp [Bool.and_eq_true, beq_iff_eq]

lemma runLocksGCLoop_spec (delOk : String → Bool)
    (prev : List (String × Value)) (l : List (String × Value)) :
    (∀ key : String, key ∈ (runLocksGCLoop delOk prev l).2 ↔
      ∃ v, (key, v) ∈ l ∧ lockStale prev key v = true ∧ delOk key = true) ∧
    (∀ key v, (key, v) ∈ l → key ∉ (runLocksGCLoop delOk prev l).2 →
      (key, ⟨"", v.modRevision, v.leaseID⟩) ∈ (runLocksGCLoop delOk prev l).1) := by
  induction l with
  | nil =>
    constructor
    · intro key
      simp [runLocksGCLoop]
    · intro key v h
      simp at h
  | cons p rest ih =>
    obtain ⟨k0, v0⟩ := p
    obtain ⟨ih1, ih2⟩ := ih
    by_cases hc : (lockStale prev k0 v0 && delOk k0) = true
    · have hres : runLocksGCLoop delOk prev ((k0, v0) :: rest) =
          ((runLocksGCLoop delOk prev rest).1,
            k0 :: (runLocksGCLoop delOk prev rest).2) := by
        simp [runLocksGCLoop, hc]
      have hc' : lockStale prev k0 v0 = true ∧ delOk k0 = true := by
        simpa [Bool.and_eq_true] using hc
      obtain ⟨hc1, hc2⟩ := hc'
      constructor
      · intro key
        rw [hres]
        simp only [List.mem_cons]
        constructor
        · rintro (rfl | hk)
          · exact ⟨v0, Or.inl rfl, hc1, hc2⟩
          · rcases (ih1 key).mp hk with ⟨v, hv, hs, hd⟩
            exact ⟨v, Or.inr hv, hs, hd⟩
        · rintro ⟨v, hv, hs, hd⟩
          rcases hv with heq | htail
          · cases heq
            exact Or.inl rfl
          · exact Or.inr ((ih1 key).mpr ⟨v, htail, hs, hd⟩)
      · intro key v hmem hnotin
        rw [hres] at hnotin ⊢
        rcases List.mem_cons.mp hmem with heq | htail
        · cases heq
          exact absurd (List.mem_cons_self _ _) hnotin
        · exact ih2 key v htail fun hk =>
            hnotin (List.mem_cons_of_mem _ hk)
    · have hres : runLocksGCLoop delOk prev ((k0, v0) :: rest) =
          ((k0, ⟨"", v0.modRevision, v0.leaseID⟩) ::
              (runLocksGCLoop delOk prev rest).1,
            (runLocksGCLoop delOk prev rest).2) := by
        simp [runLocksGCLoop, hc]
      constructor
      · intro key
        rw [hres]
        constructor
        · intro hk
          rcases (ih1 key).mp hk with ⟨v, hv, hs, hd⟩
          exact ⟨v, List.mem_cons_of_mem _ hv, hs, hd⟩
        · rintro ⟨v, hv, hs, hd⟩
          rcases List.mem_cons.mp hv with heq | htail
          · cases heq
            exact absurd (by simp [hs, hd]) hc
          · exact (ih1 key).mpr ⟨v, htail, hs, hd⟩
      · intro key v hmem hnotin
        rw [hres] at hnotin ⊢
        rcases List.mem_cons.mp hmem with heq | htail
        · cases heq
          exact List.mem_cons_self _ _
        · exact List.mem_cons_of_mem _ (ih2 key v htail hnotin)

/-! ### Lemmas about RunGC -/

lemma gcStep_split (cfg : BackendCfg) (env : GCEnv) (prev : List (String × Nat))
    (mi ma : Nat) (key : String) (v : Value) :
    gcStep cfg env prev mi ma key v = ⟨[], none, false, false, false⟩ ∨
    (env.lockOk key = false ∧
      gcStep cfg env prev mi ma key v =
        ⟨[GCEvent.lockAttempt key], none, false, false, false⟩) ∨
    (env.lockOk key = true ∧ env.slaveList key = none ∧
      gcStep cfg env prev mi ma key v =
        ⟨[GCEvent.lockAttempt key,
            GCEvent.listSlaves key (pathJoin [cfg.valuePath, v.data])],
          none, false, false, false⟩) ∨
    (∃ pairs, env.lockOk key = true ∧ env.slaveList key = some pairs ∧
      pairs.any
          (fun p => prefixMatchesKey (pathJoin [cfg.valuePath, v.data]) p.1) =
        true ∧
      gcStep cfg env prev mi ma key v =
        ⟨[GCEvent.lockAttempt key,
            GCEvent.listSlaves key (pathJoin [cfg.valuePath, v.data])],
          none, false, false, false⟩) ∨
    (∃ pairs modRev, env.lockOk key = true ∧ env.slaveList key = some pairs ∧
      pairs.any
          (fun p => prefixMatchesKey (pathJoin [cfg.valuePath, v.data]) p.1) =
        false ∧
      lookupA prev key = some modRev ∧ modRev ≠ v.modRevision ∧
      gcStep cfg env prev mi ma key v =
        ⟨[GCEvent.lockAttempt key,
            GCEvent.listSlaves key (pathJoin [cfg.valuePath, v.data])],
          none, false, false, false⟩) ∨
    (∃ pairs, env.lockOk key = true ∧ env.slaveList key = some pairs ∧
      pairs.any
          (fun p => prefixMatchesKey (pathJoin [cfg.valuePath, v.data]) p.1) =
        false ∧
      lookupA prev key = some v.modRevision ∧
      gcStep cfg env prev mi ma key v =
        ⟨[GCEvent.lockAttempt key,
            GCEvent.listSlaves key (pathJoin [cfg.valuePath, v.data]),
            GCEvent.deleteAttempt key],
          none, env.deleteOk key, true, !env.waitOk key⟩) ∨
    (∃ pairs, env.lockOk key = true ∧ env.slaveList key = some pairs ∧
      pairs.any
          (fun p => prefixMatchesKey (pathJoin [cfg.valuePath, v.data]) p.1) =
        false ∧
      lookupA prev key = none ∧
      gcStep cfg env prev mi ma key v =
        ⟨[GCEvent.lockAttempt key,
            GCEvent.listSlaves key (pathJoin [cfg.valuePath, v.data])],
          some (key, v.modRevision), false, false, false⟩) := by
  by_cases h0 : ((splitSlash key).isEmpty : Bool) = true
  · exact Or.inl (by simp [gcStep, h0])
  · cases hp : parseUint64 ((splitSlash key).getLast?.getD "") with
    | none =>
      exact Or.inl (by simp [gcStep, h0, List.getLastD_eq_getLast?, hp])
    | some idv =>
      by_cases hr : idv < mi ∨ idv > ma
      · exact Or.inl (by simp [gcStep, h0, List.getLastD_eq_getLast?, hp, hr])
      · by_cases hlock : env.lockOk key = false
        · exact Or.inr (Or.inl ⟨hlock,
            by simp [gcStep, h0, List.getLastD_eq_getLast?, hp, hr, hlock]⟩)
        · have hlock2 : env.lockOk key = true := by
            cases hb : env.lockOk key
            · exact absurd hb hlock
            · rfl
          cases hs : env.slaveList key with
          | none =>
            exact Or.inr (Or.inr (Or.inl ⟨hlock2, rfl,
              by simp [gcStep, h0, List.getLastD_eq_getLast?, hp, hr, hlock,
                hs]⟩))
          | some pairs =>
            by_cases hu : pairs.any
                (fun p =>
                  prefixMatchesKey (pathJoin [cfg.valuePath, v.data]) p.1) =
              true
            · exact Or.inr (Or.inr (Or.inr (Or.inl
                ⟨pairs, hlock2, rfl, hu,
                  by simp [gcStep, h0, List.getLastD_eq_getLast?, hp, hr,
                    hlock, hs, hu]⟩)))
            · have hu2 : pairs.any
                  (fun p =>
                    prefixMatchesKey (pathJoin [cfg.valuePath, v.data]) p.1) =
                false := by
                cases hb : pairs.any
                    (fun p =>
                      prefixMatchesKey (pathJoin [cfg.valuePath, v.data]) p.1)
                · rfl
                · exact absurd hb hu
              cases hpre : lookupA prev key with
              | some modRev =>
                by_cases hm : modRev = v.modRevision
                · subst hm
                  exact Or.inr (Or.inr (Or.inr (Or.inr (Or.inr (Or.inl
                    ⟨pairs, hlock2, rfl, hu2, rfl,
                      by simp [gcStep, h0, List.getLastD_eq_getLast?, hp, hr,
                        hlock, hs, hu2, hpre]⟩)))))
                · exact Or.inr (Or.inr (Or.inr (Or.inr (Or.inl
                    ⟨pairs, modRev, hlock2, rfl, hu2, rfl, hm,
                      by simp [gcStep, h0, List.getLastD_eq_getLast?, hp, hr,
                        hlock, hs, hu2, hpre, hm]⟩))))
              | none =>
                exact Or.inr (Or.inr (Or.inr (Or.inr (Or.inr (Or.inr
                  ⟨pairs, hlock2, rfl, hu2, rfl,
                    by simp [gcStep, h0, List.getLastD_eq_getLast?, hp, hr,
                      hlock, hs, hu2, hpre]⟩)))))

lemma gcStep_events_key (cfg : BackendCfg) (env : GCEnv)
    (prev : List (String × Nat)) (mi ma : Nat) (key : String) (v : Value) :
    ∀ e ∈ (gcStep cfg env prev mi ma key v).events, gcEventKey e = key := by
  intro e he
  rcases gcStep_split cfg env prev mi ma key v with
      h | ⟨h1, h⟩ | ⟨h1, h2, h⟩ | ⟨pairs, h1, h2, h3, h⟩ |
      ⟨pairs, mr, h1, h2, h3, h4, h5, h⟩ | ⟨pairs, h1, h2, h3, h4, h⟩ |
      ⟨pairs, h1, h2, h3, h4, h⟩ <;>
    rw [h] at he <;> fin_cases he <;> rfl

lemma gcStep_stale_spec (cfg : BackendCfg) (env : GCEnv)
    (prev : List (String × Nat)) (mi ma : Nat) (key : String) (v : Value)
    (p : String × Nat) (hp : (gcStep cfg env prev mi ma key v).stale = some p) :
    p = (key, v.modRevision) ∧ lookupA prev key = none := by
  rcases gcStep_split cfg env prev mi ma key v with
      h | ⟨h1, h⟩ | ⟨h1, h2, h⟩ | ⟨pairs, h1, h2, h3, h⟩ |
      ⟨pairs, mr, h1, h2, h3, h4, h5, h⟩ | ⟨pairs, h1, h2, h3, h4, h⟩ |
      ⟨pairs, h1, h2, h3, h4, h⟩
  · rw [h] at hp
    exact absurd hp (by simp)
  · rw [h] at hp
    exact absurd hp (by simp)
  · rw [h] at hp
    exact absurd hp (by simp)
  · rw [h] at hp
    exact absurd hp (by simp)
  · rw [h] at hp
    exact absurd hp (by simp)
  · rw [h] at hp
    exact absurd hp (by simp)
  · rw [h] at hp
    have hpq : (key, v.modRevision) = p := by simpa using hp
    exact ⟨hpq.symm, h4⟩

lemma gcStep_delete_spec (cfg : BackendCfg) (env : GCEnv)
    (prev : List (String × Nat)) (mi ma : Nat) (key2 key : String)
    (v : Value)
    (he : GCEvent.deleteAttempt key2 ∈ (gcStep cfg env prev mi ma key v).events) :
    key2 = key ∧ env.lockOk key = true ∧
      ∃ pairs, env.slaveList key = some pairs ∧
        (∀ p ∈ pairs,
          prefixMatchesKey (pathJoin [cfg.valuePath, v.data]) p.1 = false) ∧
        lookupA prev key = some v.modRevision := by
  rcases gcStep_split cfg env prev mi ma key v with
      h | ⟨h1, h⟩ | ⟨h1, h2, h⟩ | ⟨pairs, h1, h2, h3, h⟩ |
      ⟨pairs, mr, h1, h2, h3, h4, h5, h⟩ | ⟨pairs, h1, h2, h3, h4, h⟩ |
      ⟨pairs, h1, h2, h3, h4, h⟩
  · rw [h] at he
    simp at he
  · rw [h] at he
    simp at he
  · rw [h] at he
    simp at he
  · rw [h] at he
    simp at he
  · rw [h] at he
    simp at he
  · rw [h] at he
    simp at he
    subst he
    refine ⟨rfl, h1, pairs, h2, ?_, h4⟩
    intro p hp2
    cases hb : prefixMatchesKey (pathJoin [cfg.valuePath, v.data]) p.1
    · rfl
    · have hany : pairs.any
          (fun q => prefixMatchesKey (pathJoin [cfg.valuePath, v.data]) q.1) =
            true :=
        List.any_eq_true.mpr ⟨p, hp2, hb⟩
      exact Bool.noConfusion (hany.symm.trans h3)
  · rw [h] at he
    simp at he

lemma gcStep_out_of_range (cfg : BackendCfg) (env : GCEnv)
    (prev : List (String × Nat)) (mi ma : Nat) (key : String) (v : Value)
    (idv : Nat) (hp : parseUint64 ((splitSlash key).getLastD "") = some idv)
    (hr : idv < mi ∨ ma < idv) :
    gcStep cfg env prev mi ma key v = ⟨[], none, false, false, false⟩ := by
  have hne : ((splitSlash key).isEmpty : Bool) = false := by
    cases hb : (splitSlash key).isEmpty
    · rfl
    · have hnil : splitSlash key = [] := by simpa using hb
      rw [hnil] at hp
      exact absurd hp (by simp [parseUint64])
  rw [List.getLastD_eq_getLast?] at hp
  have hr2 : idv < mi ∨ idv > ma := hr
  simp [gcStep, hne, List.getLastD_eq_getLast?, hp, hr2]

lemma gcStep_unmarked_stale (cfg : BackendCfg) (env : GCEnv)
    (prev : List (String × Nat)) (mi ma : Nat) (key : String) (v : Value)
    (idv : Nat) (pairs : List (String × Value))
    (hp : parseUint64 ((splitSlash key).getLastD "") = some idv)
    (hmi : mi ≤ idv) (hma : idv ≤ ma)
    (hlock : env.lockOk key = true)
    (hs : env.slaveList key = some pairs)
    (hnomatch : ∀ p ∈ pairs,
      prefixMatchesKey (pathJoin [cfg.valuePath, v.data]) p.1 = false)
    (hprev : lookupA prev key = none) :
    gcStep cfg env prev mi ma key v =
      ⟨[GCEvent.lockAttempt key,
          GCEvent.listSlaves key (pathJoin [cfg.valuePath, v.data])],
        some (key, v.modRevision), false, false, false⟩ := by
  have hne : ((splitSlash key).isEmpty : Bool) = false := by
    cases hb : (splitSlash key).isEmpty
    · rfl
    · have hnil : splitSlash key = [] := by simpa using hb
      rw [hnil] at hp
      exact absurd hp (by simp [parseUint64])
  rw [List.getLastD_eq_getLast?] at hp
  have hr : ¬(idv < mi ∨ idv > ma) := by omega
  have hany : pairs.any
      (fun p => prefixMatchesKey (pathJoin [cfg.valuePath, v.data]) p.1) =
        false := by
    cases hb : pairs.any
        (fun p => prefixMatchesKey (pathJoin [cfg.valuePath, v.data]) p.1)
    · rfl
    · rcases List.any_eq_true.mp hb with ⟨p, hp2, hp3⟩
      exact absurd hp3 (by rw [hnomatch p hp2]; simp)
  simp [gcStep, hne, List.getLastD_eq_getLast?, hp, hr, hlock, hs, hany, hprev]

lemma runGCLoop_events_origin (cfg : BackendCfg) (env : GCEnv)
    (prev : List (String × Nat)) (mi ma : Nat) :
    ∀ (l : List (String × Value)) (acc : GCAcc) (e : GCEvent),
      e ∈ (runGCLoop cfg env prev mi ma l acc).events →
      e ∈ acc.events ∨
        ∃ k v, (k, v) ∈ l ∧ e ∈ (gcStep cfg env prev mi ma k v).events := by
  intro l
  induction l with
  | nil =>
    intro acc e he
    exact Or.inl (by simpa [runGCLoop] using he)
  | cons p rest ih =>
    intro acc e he
    obtain ⟨k0, v0⟩ := p
    simp only [runGCLoop] at he
    by_cases hab : (gcStep cfg env prev mi ma k0 v0).abort = true
    · rw [if_pos hab] at he
      rcases List.mem_append.mp he with h | h
      · exact Or.inl h
      · exact Or.inr ⟨k0, v0, List.mem_cons_self _ _, h⟩
    · rw [if_neg hab] at he
      rcases ih _ e he with h | ⟨k, v, hkv, hstep⟩
      · rcases List.mem_append.mp h with h1 | h2
        · exact Or.inl h1
        · exact Or.inr ⟨k0, v0, List.mem_cons_self _ _, h2⟩
      · exact Or.inr ⟨k, v, List.mem_cons_of_mem _ hkv, hstep⟩

lemma runGCLoop_stale_origin (cfg : BackendCfg) (env : GCEnv)
    (prev : List (String × Nat)) (mi ma : Nat) :
    ∀ (l : List (String × Value)) (acc : GCAcc) (p : String × Nat),
      p ∈ (runGCLoop cfg env prev mi ma l acc).staleKeys →
      p ∈ acc.staleKeys ∨
        ∃ k v, (k, v) ∈ l ∧ (gcStep cfg env prev mi ma k v).stale = some p := by
  intro l
  induction l with
  | nil =>
    intro acc p hp
    exact Or.inl (by simpa [runGCLoop] using hp)
  | cons q rest ih =>
    intro acc p hp
    obtain ⟨k0, v0⟩ := q
    simp only [runGCLoop] at hp
    by_cases hab : (gcStep cfg env prev mi ma k0 v0).abort = true
    · rw [if_pos hab] at hp
      simp at hp
    · rw [if_neg hab] at hp
      rcases ih _ p hp with h | ⟨k, v, hkv, hstep⟩
      · rcases List.mem_append.mp h with h1 | h2
        · exact Or.inl h1
        · cases hst : (gcStep cfg env prev mi ma k0 v0).stale with
          | none =>
            rw [hst] at h2
            simp at h2
          | some q2 =>
            rw [hst] at h2
            have hq : p = q2 := by simpa using h2
            subst hq
            exact Or.inr ⟨k0, v0, List.mem_cons_self _ _, hst⟩
      · exact Or.inr ⟨k, v, List.mem_cons_of_mem _ hkv, hstep⟩

lemma runGCLoop_ok_of_ok (cfg : BackendCfg) (env : GCEnv)
    (prev : List (String × Nat)) (mi ma : Nat) :
    ∀ (l : List (String × Value)) (acc : GCAcc),
      (runGCLoop cfg env prev mi ma l acc).ok = true → acc.ok = true := by
  intro l
  induction l with
  | nil =>
    intro acc h
    simpa [runGCLoop] using h
  | cons q rest ih =>
    intro acc h
    obtain ⟨k0, v0⟩ := q
    simp only [runGCLoop] at h
    by_cases hab : (gcStep cfg env prev mi ma k0 v0).abort = true
    · rw [if_pos hab] at h
      simp at h
    · rw [if_neg hab] at h
      have h2 := ih _ h
      exact h2

lemma runGCLoop_stale_mono (cfg : BackendCfg) (env : GCEnv)
    (prev : List (String × Nat)) (mi ma : Nat) :
    ∀ (l : List (String × Value)) (acc : GCAcc) (p : String × Nat),
      (runGCLoop cfg env prev mi ma l acc).ok = true →
      p ∈ acc.staleKeys → p ∈ (runGCLoop cfg env prev mi ma l acc).staleKeys := by
  intro l
  induction l with
  | nil =>
    intro acc p _ hp
    simpa [runGCLoop] using hp
  | cons q rest ih =>
    intro acc p hok hp
    obtain ⟨k0, v0⟩ := q
    simp only [runGCLoop] at hok ⊢
    by_cases hab : (gcStep cfg env prev mi ma k0 v0).abort = true
    · rw [if_pos hab] at hok
      simp at hok
    · rw [if_neg hab] at hok ⊢
      exact ih _ p hok (List.mem_append.mpr (Or.inl hp))

lemma runGCLoop_stale_complete (cfg : BackendCfg) (env : GCEnv)
    (prev : List (String × Nat)) (mi ma : Nat) :
    ∀ (l : List (String × Value)) (acc : GCAcc) (k : String) (v : Value)
      (p : String × Nat),
      (runGCLoop cfg env prev mi ma l acc).ok = true →
      (k, v) ∈ l → (gcStep cfg env prev mi ma k v).stale = some p →
      p ∈ (runGCLoop cfg env prev mi ma l acc).staleKeys := by
  intro l
  induction l with
  | nil =>
    intro acc k v p _ hmem _
    simp at hmem
  | cons q rest ih =>
    intro acc k v p hok hmem hstale
    obtain ⟨k0, v0⟩ := q
    rcases List.mem_cons.mp hmem with heq | htail
    · cases heq
      simp only [runGCLoop] at hok ⊢
      by_cases hab : (gcStep cfg env prev mi ma k v).abort = true
      · rw [if_pos hab] at hok
        simp at hok
      · rw [if_neg hab] at hok ⊢
        refine runGCLoop_stale_mono cfg env prev mi ma rest _ p hok ?_
        refine List.mem_append.mpr (Or.inr ?_)
        rw [hstale]
        simp
    · simp only [runGCLoop] at hok ⊢
      by_cases hab : (gcStep cfg env prev mi ma k0 v0).abort = true
      · rw [if_pos hab] at hok
        simp at hok
      · rw [if_neg hab] at hok ⊢
        exact ih _ k v p hok htail hstale

lemma mem_eq_of_nodup_keys {α : Type} (l : List (String × α))
    (hnd : (l.map Prod.fst).Nodup) (k : String) (a b : α)
    (ha : (k, a) ∈ l) (hb : (k, b) ∈ l) : a = b := by
  induction l with
  | nil => cases ha
  | cons p rest ih =>
    obtain ⟨pk, pv⟩ := p
    simp only [List.map_cons, List.nodup_cons] at hnd
    obtain ⟨hknotin, hnd2⟩ := hnd
    rcases List.mem_cons.mp ha with h1 | h1 <;>
      rcases List.mem_cons.mp hb with h2 | h2
    · injection h1 with hk1 hv1
      injection h2 with hk2 hv2
      rw [hv1, hv2]
    · injection h1 with hk1 hv1
      have hmap : k ∈ rest.map Prod.fst := List.mem_map.mpr ⟨(k, b), h2, rfl⟩
      rw [hk1] at hmap
      exact absurd hmap hknotin
    · injection h2 with hk2 hv2
      have hmap : k ∈ rest.map Prod.fst := List.mem_map.mpr ⟨(k, a), h1, rfl⟩
      rw [hk2] at hmap
      exact absurd hmap hknotin
    · exact ih hnd2 h1 h2

/-! ### Claim C2 -/

/-- C2 (counterexample): `prefixMatchesKey "abc" "xyz/q"` returns true even
though `"xyz/q"` does not start with the prefix `"abc"`, refuting the
claimed characterisation, which requires `key` to start with `prefix`. -/
theorem prefixMatchesKey_claim_cx :
    prefixMatchesKey "abc" "xyz/q" = true ∧ goHasPfx "xyz/q" "abc" = false := by
  decide

/-- C2 (amended): `prefixMatchesKey pfx key` holds iff the character of
`key` at index `len pfx` is `'/'` and no later position holds a `'/'` —
i.e. the last `'/'` of `key` sits exactly at position `len pfx`.  The
function never checks that `key` starts with `pfx`, and the suffix after
the slash may be empty. -/
theorem prefixMatchesKey_iff (pfx key : String) :
    prefixMatchesKey pfx key = true ↔
      (key.data[goLen pfx]? = some '/' ∧
        ∀ j : Nat, j < key.data.length → key.data[j]? = some '/' →
          j ≤ goLen pfx) := by
  obtain ⟨hnone, hsome⟩ := lastSlashPos_spec key.data
  unfold prefixMatchesKey lastIndexSlash
  cases hls : lastSlashPos key.data with
  | none =>
    constructor
    · intro h
      exact absurd (h : (false : Bool) = true) (by simp)
    · rintro ⟨h1, _⟩
      exact absurd h1 (hnone hls (goLen pfx))
  | some i =>
    obtain ⟨hget, hmax⟩ := hsome i hls
    constructor
    · intro h
      have hi : Int.ofNat i = Int.ofNat (goLen pfx) := beq_iff_eq.mp h
      have hieq : i = goLen pfx := Int.ofNat.inj hi
      subst hieq
      refine ⟨hget, ?_⟩
      intro j _ hj
      exact hmax j hj
    · rintro ⟨h1, h2⟩
      have hle1 : i ≤ goLen pfx :=
        h2 i (getElem?_lt_of_eq_some hget) hget
      have hle2 : goLen pfx ≤ i := hmax _ h1
      have hieq : i = goLen pfx := Nat.le_antisymm hle1 hle2
      subst hieq
      exact beq_self_eq_true _

/-- C2 (witness): the amended characterisation applied to a well-formed
slave key directly under its value prefix. -/
theorem prefixMatchesKey_iff_witness :
    prefixMatchesKey "cil/state/value/k" "cil/state/value/k/n1" = true :=
  (prefixMatchesKey_iff "cil/state/value/k" "cil/state/value/k/n1").mpr
    ⟨by decide, by decide⟩

/-! ### Claim C5 -/

/-- C5: when `Get` returns without a kv-store error, its result is either
`NoID` or obtained by parsing, as a decimal uint64, the value of some
listed slave pair whose full path satisfies `prefixMatchesKey` with respect
to `valuePrefix/{key}`; a value that does not parse is never returned. -/
theorem get_returns_parsed_or_noID (cfg : BackendCfg)
    (pairs : List (String × Value)) (key : String) (id : Nat)
    (h : get cfg (some pairs) key = some id) :
    id = noID ∨
      pairs.any (fun p =>
        prefixMatchesKey (pathJoin [cfg.valuePath, key]) p.1 &&
          (parseUint64 p.2.data == some id)) = true := by
  have hid : getLoop (pathJoin [cfg.valuePath, key]) pairs = id := by
    simpa [get] using h
  have hspec := getLoop_spec (pathJoin [cfg.valuePath, key]) pairs
  rw [hid] at hspec
  exact hspec

/-- C5 (witness): a concrete listing where `Get` returns the parsed id 7
from the single matching slave key. -/
theorem get_returns_parsed_or_noID_witness :
    (7 : Nat) = noID ∨
      pairsW5.any (fun p =>
        prefixMatchesKey (pathJoin [cfgW.valuePath, "k"]) p.1 &&
          (parseUint64 p.2.data == some 7)) = true :=
  get_returns_parsed_or_noID cfgW pairsW5 "k" 7 (by decide)

/-! ### Claim C7 -/

/-- C7: `UpdateKey` writes the master key only through `CreateOnly`, so an
existing master key is never overwritten (whatever its value), and the
slave key is written with `CreateOnly` when `reliablyMissing` and with
`UpdateIfDifferent` otherwise. -/
theorem updateKey_write_disciplines (cfg : BackendCfg) (env : KVEnv)
    (id : Nat) (key : String) (reliablyMissing : Bool)
    (hne : masterPath cfg id ≠ slavePath cfg key) :
    ((updateKey cfg env id key reliablyMissing).1 =
        [KVOp.createOnly (masterPath cfg id) key false] ∨
      (updateKey cfg env id key reliablyMissing).1 =
        [KVOp.createOnly (masterPath cfg id) key false,
          if reliablyMissing then
            KVOp.createOnly (slavePath cfg key) (natToString id) true
          else
            KVOp.updateIfDifferent (slavePath cfg key) (natToString id) true]) ∧
    ∀ store : Store, ∀ w : String,
      lookupA store (masterPath cfg id) = some w →
      lookupA (applyOps store (updateKey cfg env id key reliablyMissing).1)
        (masterPath cfg id) = some w := by
  have hops :
      (updateKey cfg env id key reliablyMissing).1 =
          [KVOp.createOnly (masterPath cfg id) key false] ∨
        (updateKey cfg env id key reliablyMissing).1 =
          [KVOp.createOnly (masterPath cfg id) key false,
            if reliablyMissing then
              KVOp.createOnly (slavePath cfg key) (natToString id) true
            else
              KVOp.updateIfDifferent (slavePath cfg key) (natToString id)
                true] := by
    cases hc : env.createOnlyRes (masterPath cfg id) with
    | none => exact Or.inl (by simp [updateKey, hc])
    | some b =>
      cases reliablyMissing with
      | true => exact Or.inr (by simp [updateKey, hc])
      | false => exact Or.inr (by simp [updateKey, hc])
  refine ⟨hops, ?_⟩
  intro store w h
  rcases hops with h1 | h2
  · rw [h1]
    show lookupA
        (applyOp store (KVOp.createOnly (masterPath cfg id) key false))
        (masterPath cfg id) = some w
    exact applyOp_createOnly_keeps store _ key false _ w h
  · rw [h2]
    have hstep1 :
        lookupA (applyOp store (KVOp.createOnly (masterPath cfg id) key false))
          (masterPath cfg id) = some w :=
      applyOp_createOnly_keeps store _ key false _ w h
    show lookupA
        (applyOp
          (applyOp store (KVOp.createOnly (masterPath cfg id) key false))
          (if reliablyMissing then
            KVOp.createOnly (slavePath cfg key) (natToString id) true
          else
            KVOp.updateIfDifferent (slavePath cfg key) (natToString id) true))
        (masterPath cfg id) = some w
    cases reliablyMissing with
    | true =>
      rw [if_pos rfl]
      rw [applyOp_frame _ _ _ (by simpa [KVOp.opKey] using hne)]
      exact hstep1
    | false =>
      rw [if_neg (by simp)]
      rw [applyOp_frame _ _ _ (by simpa [KVOp.opKey] using hne)]
      exact hstep1

/-- C7 (witness): concrete configuration where the master and slave paths
differ; the trace of a non-`reliablyMissing` update. -/
theorem updateKey_write_disciplines_witness :
    (updateKey cfgW envW7 5 "k" false).1 =
        [KVOp.createOnly (masterPath cfgW 5) "k" false] ∨
      (updateKey cfgW envW7 5 "k" false).1 =
        [KVOp.createOnly (masterPath cfgW 5) "k" false,
          if false then
            KVOp.createOnly (slavePath cfgW "k") (natToString 5) true
          else
            KVOp.updateIfDifferent (slavePath cfgW "k") (natToString 5) true] :=
  (updateKey_write_disciplines cfgW envW7 5 "k" false (by decide)).1

/-! ### Claim C8 -/

/-- C8: an event with an empty value whose type is not `Delete` never
reaches the handler: `processEvent` produces either no call list at all
(the watcher dies on a panicking `keyToID`) or a list without any
`OnUpsert`/`OnDelete` call, so the cache never receives a mapping derived
from an empty value. -/
theorem processEvent_ignores_empty_nondelete (idPath : String) (e : KVEvent)
    (hv : e.value = "") (ht : e.typ ≠ EventType.delete) :
    Option.map hasMappingCall (processEvent idPath e) ≠ some true := by
  have hd : e.value.data = [] := by rw [hv]
  by_cases hl : e.typ = EventType.listDone
  · simp [processEvent, hl, hasMappingCall]
  · cases hk : keyToID idPath e.key with
    | crash => simp [processEvent, hl, hk]
    | err => simp [processEvent, hl, hk, hasMappingCall]
    | ok id =>
      by_cases hz : id = noID
      · simp [processEvent, hl, hk, hz, hasMappingCall]
      · simp [processEvent, hl, hk, hz, ht, hasMappingCall, hv]

/-- C8 (witness): an empty-valued `Modify` event on a well-formed master
key produces no mapping callback. -/
theorem processEvent_ignores_empty_nondelete_witness :
    Option.map hasMappingCall
      (processEvent "cil/state/id"
        ⟨EventType.modify, "cil/state/id/7", ""⟩) ≠ some true :=
  processEvent_ignores_empty_nondelete "cil/state/id"
    ⟨EventType.modify, "cil/state/id/7", ""⟩ rfl (by decide)

/-! ### Claim C9 -/

/-- C9: `Release` performs exactly one kv-store mutation — deleting this
node's own slave key `valuePrefix/{key}/{nodeSuffix}` — every other key of
the store is left untouched, and the error of that delete, if any, is
returned to the caller. -/
theorem release_only_deletes_own_slave (cfg : BackendCfg) (env : KVEnv)
    (key : String) (store : Store) :
    (release cfg env key).1 = [KVOp.del (slavePath cfg key)] ∧
    (∀ k2 : String, k2 ≠ slavePath cfg key →
      lookupA (applyOps store (release cfg env key).1) k2 =
        lookupA store k2) ∧
    ((release cfg env key).2 = true ↔
      env.deleteOk (slavePath cfg key) = false) := by
  refine ⟨rfl, ?_, ?_⟩
  · intro k2 hne
    show lookupA (applyOp store (KVOp.del (slavePath cfg key))) k2 =
      lookupA store k2
    exact applyOp_frame store _ k2 (by simpa [KVOp.opKey] using hne)
  · show (!env.deleteOk (slavePath cfg key)) = true ↔
      env.deleteOk (slavePath cfg key) = false
    simp

/-- C9 (witness): releasing `k` on a store holding the master key and two
slave keys leaves the master key `id/5` untouched. -/
theorem release_only_deletes_own_slave_witness :
    lookupA (applyOps storeW9 (release cfgW envW9 "k").1) "cil/state/id/5" =
      lookupA storeW9 "cil/state/id/5" :=
  (release_only_deletes_own_slave cfgW envW9 "k" storeW9).2.1
    "cil/state/id/5" (by decide)

/-! ### Claim C10 -/

/-- C10: `keyToID` is not total — on an input equal to the id prefix
itself, the trimmed suffix is empty and the Go code's `suffix[0]` indexes
out of bounds (a panic), instead of returning `NoID` with an error. -/
theorem keyToID_crash_on_exact_pfx :
    keyToID "cil/state/id" "cil/state/id" = KeyToIDOutcome.crash := by
  decide

/-! ### Claim C1 -/

/-- C1: over any kv-store state, `RunGC` attempts to delete a master key
only when the per-key lock was acquired, the locked listing of its slave
keys succeeded and contained no key satisfying `prefixMatchesKey` for
`valuePrefix/{masterValue}`, and the previous round's stale map holds the
key at exactly the modification revision observed in this cycle's
listing; in particular a key with a matching slave key, or whose revision
changed between the two observations, is never deleted. -/
theorem runGC_deletes_only_marked (cfg : BackendCfg) (env : GCEnv)
    (prev : List (String × Nat)) (mi ma : Nat)
    (allocated : List (String × Value)) (key : String)
    (hList : env.idList = some allocated)
    (hdel : GCEvent.deleteAttempt key ∈ (runGC cfg env prev mi ma).events) :
    env.lockOk key = true ∧
      ∃ v pairs, (key, v) ∈ allocated ∧ env.slaveList key = some pairs ∧
        (∀ p ∈ pairs,
          prefixMatchesKey (pathJoin [cfg.valuePath, v.data]) p.1 = false) ∧
        lookupA prev key = some v.modRevision := by
  have hev : GCEvent.deleteAttempt key ∈
      (runGCLoop cfg env prev mi ma allocated ⟨[], 0, [], true⟩).events := by
    simpa [runGC, hList] using hdel
  rcases runGCLoop_events_origin cfg env prev mi ma allocated
      ⟨[], 0, [], true⟩ _ hev with h | ⟨k, v, hkv, hstep⟩
  · simp at h
  · obtain ⟨hkey, hlock, pairs, hs, hmatch, hprev⟩ :=
      gcStep_delete_spec cfg env prev mi ma key k v hstep
    subst hkey
    exact ⟨hlock, v, pairs, hkv, hs, hmatch, hprev⟩

/-- C1 (witness): a cycle that does delete `id/5` — previous mark at the
same revision 7, no slave keys, lock and delete succeeding. -/
theorem runGC_deletes_only_marked_witness :
    envW1.lockOk "cil/state/id/5" = true ∧
      ∃ v pairs,
        ("cil/state/id/5", v) ∈ [("cil/state/id/5", Value.mk "k1" 7 1)] ∧
        envW1.slaveList "cil/state/id/5" = some pairs ∧
        (∀ p ∈ pairs,
          prefixMatchesKey (pathJoin [cfgW.valuePath, v.data]) p.1 = false) ∧
        lookupA prevW1 "cil/state/id/5" = some v.modRevision :=
  runGC_deletes_only_marked cfgW envW1 prevW1 1 10
    [("cil/state/id/5", Value.mk "k1" 7 1)] "cil/state/id/5" rfl (by decide)

/-! ### Claim C3 -/

/-- C3: a lock key is deleted by `RunLocksGC` iff it is listed, present in
the previous round's stale map with identical `(modRevision, leaseID)`, and
the backend delete succeeds; every listed lock key not successfully deleted
reappears in the returned map with its currently observed
`(modRevision, leaseID)` — hence a lock whose `(modRevision, leaseID)`
changed between observations is never deleted. -/
theorem runLocksGC_two_phase (env : LockGCEnv)
    (prev allocated : List (String × Value))
    (hList : env.lockList = some allocated) :
    ∀ res, runLocksGC env prev = some res →
      (∀ key : String, key ∈ res.2 ↔
        ∃ v, (key, v) ∈ allocated ∧
          (∃ mv, lookupA prev key = some mv ∧
            mv.modRevision = v.modRevision ∧ mv.leaseID = v.leaseID) ∧
          env.deleteOk key = true) ∧
      (∀ key v, (key, v) ∈ allocated → key ∉ res.2 →
        (key, ⟨"", v.modRevision, v.leaseID⟩) ∈ res.1) := by
  intro res hres
  have hres2 : res = runLocksGCLoop env.deleteOk prev allocated := by
    have h2 : runLocksGC env prev =
        some (runLocksGCLoop env.deleteOk prev allocated) := by
      rw [runLocksGC, hList]
    rw [h2] at hres
    exact (Option.some.inj hres).symm
  subst hres2
  obtain ⟨l1, l2⟩ := runLocksGCLoop_spec env.deleteOk prev allocated
  constructor
  · intro key
    constructor
    · intro hk
      rcases (l1 key).mp hk with ⟨v, hv, hs, hd⟩
      exact ⟨v, hv, (lockStale_iff prev key v).mp hs, hd⟩
    · rintro ⟨v, hv, hmv, hd⟩
      exact (l1 key).mpr ⟨v, hv, (lockStale_iff prev key v).mpr hmv, hd⟩
  · exact l2

/-- C3 (witness): `locks/a`, observed twice with the same
`(modRevision, leaseID) = (3, 7)`, is deleted. -/
theorem runLocksGC_two_phase_witness :
    "cil/state/locks/a" ∈ (runLocksGCLoop envW3.deleteOk prevW3 allocW3).2 :=
  ((runLocksGC_two_phase envW3 prevW3 allocW3 rfl
      (runLocksGCLoop envW3.deleteOk prevW3 allocW3) rfl).1
    "cil/state/locks/a").mpr
    ⟨Value.mk "" 3 7, by decide, ⟨Value.mk "" 3 7, by decide, rfl, rfl⟩, rfl⟩

/-! ### Claim C4 -/

/-- C4 (counterexample): `id/5` is listed at revision 7, in range, with no
slave keys — yet, because the previous round marked it at the outdated
revision 9, the cycle neither deletes it nor records it in the returned
stale map, which is empty; the claim says it must be recorded. -/
theorem runGC_remark_claim_cx :
    envC4.idList = some [("cil/state/id/5", Value.mk "k1" 7 1)] ∧
    envC4.slaveList "cil/state/id/5" = some [] ∧
    lookupA prevC4 "cil/state/id/5" = some 9 ∧
    (runGC cfgW envC4 prevC4 1 10).ok = true ∧
    GCEvent.deleteAttempt "cil/state/id/5" ∉
      (runGC cfgW envC4 prevC4 1 10).events ∧
    (runGC cfgW envC4 prevC4 1 10).staleKeys = [] := by
  decide

/-- C4 (amended): in a cycle that completes without error, an in-range
master key observed with no matching slave keys is recorded in the
returned stale map at its observed modification revision exactly when it
is absent from the previous round's map; a key present in the previous
map with a changed modification revision is neither deleted nor recorded
this cycle (only the following cycle re-marks it). -/
theorem runGC_stale_marking (cfg : BackendCfg) (env : GCEnv)
    (prev : List (String × Nat)) (mi ma : Nat)
    (allocated : List (String × Value))
    (hList : env.idList = some allocated) :
    (∀ key v pairs idv,
      (runGC cfg env prev mi ma).ok = true →
      (key, v) ∈ allocated →
      parseUint64 ((splitSlash key).getLastD "") = some idv →
      mi ≤ idv → idv ≤ ma →
      env.lockOk key = true →
      env.slaveList key = some pairs →
      (∀ p ∈ pairs,
        prefixMatchesKey (pathJoin [cfg.valuePath, v.data]) p.1 = false) →
      lookupA prev key = none →
      (key, v.modRevision) ∈ (runGC cfg env prev mi ma).staleKeys) ∧
    (∀ key v m,
      (allocated.map Prod.fst).Nodup →
      (key, v) ∈ allocated →
      lookupA prev key = some m → m ≠ v.modRevision →
      GCEvent.deleteAttempt key ∉ (runGC cfg env prev mi ma).events ∧
      ∀ m2, (key, m2) ∉ (runGC cfg env prev mi ma).staleKeys) := by
  constructor
  · intro key v pairs idv hok hmem hp hmi hma hlock hs hnomatch hprev
    have hstep := gcStep_unmarked_stale cfg env prev mi ma key v idv pairs
      hp hmi hma hlock hs hnomatch hprev
    have hok2 : (runGCLoop cfg env prev mi ma allocated ⟨[], 0, [], true⟩).ok =
        true := by
      simpa [runGC, hList] using hok
    have hmem2 : (key, v.modRevision) ∈
        (runGCLoop cfg env prev mi ma allocated ⟨[], 0, [], true⟩).staleKeys :=
      runGCLoop_stale_complete cfg env prev mi ma allocated ⟨[], 0, [], true⟩
        key v (key, v.modRevision) hok2 hmem (by rw [hstep])
    simpa [runGC, hList] using hmem2
  · intro key v m hnd hmem hprev hm
    constructor
    · intro hdel
      have hev : GCEvent.deleteAttempt key ∈
          (runGCLoop cfg env prev mi ma allocated ⟨[], 0, [], true⟩).events := by
        simpa [runGC, hList] using hdel
      rcases runGCLoop_events_origin cfg env prev mi ma allocated
          ⟨[], 0, [], true⟩ _ hev with h | ⟨k, v2, hkv, hstep⟩
      · simp at h
      · obtain ⟨hkey, _, _, _, _, hprev2⟩ :=
          gcStep_delete_spec cfg env prev mi ma key k v2 hstep
        subst hkey
        have hv2 : v2 = v := mem_eq_of_nodup_keys allocated hnd key v2 v hkv hmem
        subst hv2
        rw [hprev] at hprev2
        exact hm (Option.some.inj hprev2)
    · intro m2 hmem2
      have hst : (key, m2) ∈
          (runGCLoop cfg env prev mi ma allocated ⟨[], 0, [], true⟩).staleKeys := by
        simpa [runGC, hList] using hmem2
      rcases runGCLoop_stale_origin cfg env prev mi ma allocated
          ⟨[], 0, [], true⟩ _ hst with h | ⟨k, v2, hkv, hstep⟩
      · simp at h
      · obtain ⟨hpq, hnone⟩ :=
          gcStep_stale_spec cfg env prev mi ma k v2 (key, m2) hstep
        have hkey : key = k := congrArg Prod.fst hpq
        rw [← hkey] at hnone
        rw [hprev] at hnone
        cases hnone

/-- C4 (witness): a first-seen stale key `id/6` (absent from the previous
map) is recorded at its observed revision 11. -/
theorem runGC_stale_marking_witness :
    ("cil/state/id/6", 11) ∈ (runGC cfgW envW4 [] 1 10).staleKeys :=
  (runGC_stale_marking cfgW envW4 [] 1 10
      [("cil/state/id/6", Value.mk "k2" 11 1)] rfl).1
    "cil/state/id/6" (Value.mk "k2" 11 1) [] 6 (by decide) (by decide)
    (by decide) (by decide) (by decide) rfl rfl (by simp) rfl

/-! ### Claim C6 -/

/-- C6: a listed master key whose last path segment parses to an identity
strictly below `mi` or strictly above `ma` is skipped entirely: its
per-key lock is never attempted, its slave keys are never listed, it is
never deleted, and it never appears in the returned stale map. -/
theorem runGC_skips_out_of_range (cfg : BackendCfg) (env : GCEnv)
    (prev : List (String × Nat)) (mi ma : Nat)
    (allocated : List (String × Value)) (key : String) (v : Value)
    (idv : Nat) (hList : env.idList = some allocated)
    (hmem : (key, v) ∈ allocated)
    (hp : parseUint64 ((splitSlash key).getLastD "") = some idv)
    (hr : idv < mi ∨ ma < idv) :
    GCEvent.lockAttempt key ∉ (runGC cfg env prev mi ma).events ∧
    GCEvent.deleteAttempt key ∉ (runGC cfg env prev mi ma).events ∧
    (∀ s : String,
      GCEvent.listSlaves key s ∉ (runGC cfg env prev mi ma).events) ∧
    (∀ m : Nat, (key, m) ∉ (runGC cfg env prev mi ma).staleKeys) := by
  have hstep0 : ∀ v2 : Value,
      gcStep cfg env prev mi ma key v2 = ⟨[], none, false, false, false⟩ :=
    fun v2 => gcStep_out_of_range cfg env prev mi ma key v2 idv hp hr
  have hev : ∀ e : GCEvent, gcEventKey e = key →
      e ∉ (runGC cfg env prev mi ma).events := by
    intro e hkey hmem2
    have hev2 : e ∈
        (runGCLoop cfg env prev mi ma allocated ⟨[], 0, [], true⟩).events := by
      simpa [runGC, hList] using hmem2
    rcases runGCLoop_events_origin cfg env prev mi ma allocated
        ⟨[], 0, [], true⟩ _ hev2 with h | ⟨k, v2, hkv, hstep⟩
    · simp at h
    · have hk : gcEventKey e = k :=
        gcStep_events_key cfg env prev mi ma k v2 e hstep
      rw [hkey] at hk
      rw [← hk] at hstep
      rw [hstep0 v2] at hstep
      simp at hstep
  refine ⟨hev _ rfl, hev _ rfl, fun s => hev _ rfl, ?_⟩
  intro m hmem2
  have hst : (key, m) ∈
      (runGCLoop cfg env prev mi ma allocated ⟨[], 0, [], true⟩).staleKeys := by
    simpa [runGC, hList] using hmem2
  rcases runGCLoop_stale_origin cfg env prev mi ma allocated
      ⟨[], 0, [], true⟩ _ hst with h | ⟨k, v2, hkv, hstep⟩
  · simp at h
  · obtain ⟨hpq, _⟩ := gcStep_stale_spec cfg env prev mi ma k v2 (key, m) hstep
    have hkey : key = k := congrArg Prod.fst hpq
    rw [← hkey] at hstep
    rw [hstep0 v2] at hstep
    cases hstep

/-- C6 (witness): `id/999999` with pool `[256, 65535]` — the lock is never
attempted and the key is never deleted. -/
theorem runGC_skips_out_of_range_witness :
    GCEvent.lockAttempt "cil/state/id/999999" ∉
      (runGC cfgW envW6 [] 256 65535).events ∧
    GCEvent.deleteAttempt "cil/state/id/999999" ∉
      (runGC cfgW envW6 [] 256 65535).events :=
  ⟨(runGC_skips_out_of_range cfgW envW6 [] 256 65535
      [("cil/state/id/999999", Value.mk "k9" 7 1)] "cil/state/id/999999"
      (Value.mk "k9" 7 1) 999999 rfl (by decide) (by decide)
      (by decide)).1,
    (runGC_skips_out_of_range cfgW envW6 [] 256 65535
      [("cil/state/id/999999", Value.mk "k9" 7 1)] "cil/state/id/999999"
      (Value.mk "k9" 7 1) 999999 rfl (by decide) (by decide)
      (by decide)).2.1⟩

end KVAlloc
